import Mathlib

/-!
# Verification of the seat-pressure acquisition core (`record_pressure_data.py`)

Shallow embedding of the acquisition subsystem of `src/record_pressure_data.py`:
the byte-stream utilities (`read_exact`), the column decoder (`ReceiveRowSeat`),
the map decoder with its marker scan (`ReceiveMapSeat`), the shared matrix with
its lock-protected column commits, and the perpetual acquisition loop
(`seat_thread`).

Modelling conventions:
* The serial port is modelled as the list of bytes (`List Nat`, each < 256)
  still to arrive within the timeout budget.  `ser.read(n)` returns up to `n`
  of the pending bytes; an empty result models a read timeout.  Under this
  deterministic byte source, the `read_exact` retry loop of the source
  collapses to: succeed iff at least `n` bytes are pending (consuming `n`),
  otherwise raise `TimeoutError` after consuming everything pending.
* Python integers are `Int` (the decoded value `4096 - ((low << 8) + high)`
  can be negative before clamping).  The decoded samples are small integers
  in `[0, 300]`, on which the `float32` storage of the numpy array is exact,
  so matrix cells are embedded as `Int`.
* The matrix `Values_seat` is stored column-major (`MatrixT := List (List Int)`,
  entry `j` is column `j`), since the code only ever writes whole columns
  (`Values_seat[:, col_idx] = col`) and the claims quantify over columns.
* `ValueError("Seat stream desync ...")` is the spec's `DesyncError`.
* Exceptions abort control flow; the `Except` error value carries the global
  state visible at raise time (remaining stream, and at the map level the
  matrix), which the source keeps in globals.
-/

namespace PressureCode

/-- `ROWS_SEAT` from the source: samples per column. -/
def ROWS_SEAT : Nat := 20

/-- `COLS_SEAT` from the source: columns per map. -/
def COLS_SEAT : Nat := 20

/-- The marker byte `'M'` (0x4D). -/
def MARKER : Nat := 77

/-- Error taxonomy: `TimeoutError` and the desync `ValueError`. -/
inductive Err where
  | timeout
  | desync
deriving DecidableEq, Repr

/-- One column of the matrix. -/
abbrev ColumnT := List Int

/-- The shared matrix `Values_seat`, column-major: entry `j` is column `j`. -/
abbrev MatrixT := List ColumnT

/-- `Values_seat = np.zeros((ROWS_SEAT, COLS_SEAT))`: the all-zero matrix. -/
def initMatrix : MatrixT := List.replicate COLS_SEAT (List.replicate ROWS_SEAT 0)

/-- `ser.read(n)`: return up to `n` pending bytes and the rest of the stream.
An empty first component with `0 < n` models a read timeout. -/
def serRead (n : Nat) (s : List Nat) : List Nat × List Nat := (s.take n, s.drop n)

/-- `read_exact(ser, n)`: read exactly `n` bytes or raise `TimeoutError`.
Under the deterministic byte source the retry loop succeeds iff `n` bytes are
pending; on timeout the loop has consumed every pending byte, so the error
carries the empty remaining stream. -/
def read_exact (s : List Nat) (n : Nat) : Except (Err × List Nat) (List Nat × List Nat) :=
  if n ≤ s.length then .ok (s.take n, s.drop n) else .error (.timeout, [])

/-- `val = 4096 - ((low << 8) + high)` followed by the two clamping `if`s of
`ReceiveRowSeat` (lines 44-48 of the source). -/
def decodeSample (high low : Nat) : Int :=
  let val : Int := 4096 - Int.ofNat ((low <<< 8) + high)
  let val1 : Int := if val < 0 then 0 else val
  if val1 > 300 then 300 else val1

/-- The sample-reading `for x in range(ROWS_SEAT)` loop of `ReceiveRowSeat`:
read `n` samples (high byte then low byte, each via `read_exact`), decode each. -/
def readSamples : Nat → List Nat → Except (Err × List Nat) (List Int × List Nat)
  | 0, s => .ok ([], s)
  | n + 1, s =>
    match read_exact s 1 with
    | .error e => .error e
    | .ok (hb, s1) =>
      match read_exact s1 1 with
      | .error e => .error e
      | .ok (lb, s2) =>
        match readSamples n s2 with
        | .error e => .error e
        | .ok (col, s3) => .ok (decodeSample (hb.headD 0) (lb.headD 0) :: col, s3)

/-- `Values_seat[:, col_idx] = col`: replace column `col_idx` wholesale. -/
def commitColumn (m : MatrixT) (idx : Nat) (col : ColumnT) : MatrixT := m.set idx col

/-- `ReceiveRowSeat(col_idx)`: read `ROWS_SEAT` samples, best-effort-consume one
delimiter byte with plain `ser.read(1)` (which does NOT raise on timeout), then
commit the column under the lock.  Takes and returns the stream and the shared
matrix. -/
def ReceiveRowSeat (colIdx : Nat) (s : List Nat) (m : MatrixT) :
    Except (Err × List Nat) (List Nat × MatrixT) :=
  match readSamples ROWS_SEAT s with
  | .error e => .error e
  | .ok (col, s1) => .ok ((serRead 1 s1).2, commitColumn m colIdx col)

/-- The bounded rescan loop of `ReceiveMapSeat` (lines 65-68):
`while marker != b"M" and attempts < 64: marker = ser_seat.read(1) or b""`.
`marker` is the last chunk read (empty on a timed-out read).  The loop is
embedded by recursion on `remaining = 64 - attempts`, the number of loop
iterations still allowed; the `while` condition `attempts < 64` is
`remaining > 0`. -/
def markerScanGo : List Nat → Nat → List Nat → List Nat × List Nat
  | marker, 0, s => (marker, s)
  | marker, r + 1, s =>
    if marker = [MARKER] then (marker, s)
    else markerScanGo (serRead 1 s).1 r (serRead 1 s).2

/-- The marker-wait logic at the top of each `ReceiveMapSeat` iteration
(lines 61-70): one `read_exact` of a byte, then, if it is not `'M'`, the
bounded rescan starting from `attempts = 0` (so 64 iterations allowed);
raise the desync `ValueError` if still not found.  Returns the stream just
past the marker; the error also carries the remaining stream. -/
def findMarker (s : List Nat) : Except (Err × List Nat) (List Nat) :=
  match read_exact s 1 with
  | .error e => .error e
  | .ok (marker, s1) =>
    if marker = [MARKER] then .ok s1
    else
      match markerScanGo marker 64 s1 with
      | (marker2, s2) => if marker2 = [MARKER] then .ok s2 else .error (.desync, s2)

/-- One iteration of the `for _ in range(COLS_SEAT)` loop of `ReceiveMapSeat`
(lines 60-78): marker wait, one padding byte, one index byte, then either the
silent `continue` on an out-of-range index or `ReceiveRowSeat(row_index)`. -/
def mapIteration (s : List Nat) (m : MatrixT) :
    Except (Err × List Nat) (List Nat × MatrixT) :=
  match findMarker s with
  | .error e => .error e
  | .ok s1 =>
    match read_exact s1 1 with
    | .error e => .error e
    | .ok (_, s2) =>
      match read_exact s2 1 with
      | .error e => .error e
      | .ok (idxb, s3) =>
        let row_index := idxb.headD 0
        if row_index < COLS_SEAT then ReceiveRowSeat row_index s3 m
        else .ok (s3, m)

/-- Result of a map read: the remaining stream and the shared matrix, with
errors (`TimeoutError` / desync `ValueError`) also carrying the state visible
at raise time. -/
inductive MapOutcome where
  | ok (s : List Nat) (m : MatrixT)
  | err (e : Err) (s : List Nat) (m : MatrixT)
deriving DecidableEq, Repr

/-- The `for _ in range(COLS_SEAT)` loop of `ReceiveMapSeat`, with `n`
iterations left. -/
def mapLoop : Nat → List Nat → MatrixT → MapOutcome
  | 0, s, m => .ok s m
  | n + 1, s, m =>
    match mapIteration s m with
    | .error (e, s1) => .err e s1 m
    | .ok (s1, m1) => mapLoop n s1 m1

/-- `ReceiveMapSeat()`: exactly `COLS_SEAT` iterations. -/
def ReceiveMapSeat (s : List Nat) (m : MatrixT) : MapOutcome :=
  mapLoop COLS_SEAT s m

/-- The matrix component of a map-read result. -/
def outMatrix : MapOutcome → MatrixT
  | .ok _ m => m
  | .err _ _ m => m

/-- `np.clip(Values_seat, 0, None, out=Values_seat)` (line 87): clamp every
negative cell to zero, elementwise. -/
def normalizeMatrix (m : MatrixT) : MatrixT :=
  m.map (fun c => c.map (fun v => if v < 0 then 0 else v))

/-- A sequence of whole-column commits applied in order. -/
def applyCommits (m : MatrixT) : List (Nat × ColumnT) → MatrixT
  | [] => m
  | (j, c) :: rest => applyCommits (commitColumn m j c) rest

/-- Every sample of a column lies in the clamp range `[0, 300]`. -/
def colOk (c : ColumnT) : Prop := ∀ v ∈ c, 0 ≤ v ∧ v ≤ 300

/-- Every cell of the matrix lies in the clamp range `[0, 300]`. -/
def matOk (m : MatrixT) : Prop := ∀ c ∈ m, colOk c

/-- The matrix has its fixed `ROWS_SEAT × COLS_SEAT` shape. -/
def matSized (m : MatrixT) : Prop :=
  m.length = COLS_SEAT ∧ ∀ c ∈ m, c.length = ROWS_SEAT

/-! ## The acquisition loop (`seat_thread`, lines 81-100)

One cycle of `while True` runs request + decode + normalize inside
`try`, then classifies the outcome through the `except` clauses.  The
classification is over all Python exceptions, so an `other` outcome (any
exception besides `TimeoutError` and the desync `ValueError`, e.g. a serial
transport error) is part of the model even though the embedded decoder itself
only raises the first two. -/

/-- How one cycle of `seat_thread` ended. -/
inductive Outcome where
  | success
  | timeout
  | desync
  | other
deriving DecidableEq, Repr

/-- The outcome of a real map read. -/
def classify : MapOutcome → Outcome
  | .ok _ _ => .success
  | .err .timeout _ _ => .timeout
  | .err .desync _ _ => .desync

/-- What the `except` clauses of one `seat_thread` cycle do before the loop
goes back to `while True`. -/
structure Reaction where
  /-- `ser_seat.reset_input_buffer()` was attempted. -/
  discardAttempted : Bool
  /-- total `time.sleep` duration of the handler, in milliseconds
  (the unconditional `time.sleep(0.01)` at line 100 is excluded). -/
  backoffMs : Nat
  /-- the loop body falls through to the next `while True` iteration. -/
  continues : Bool
deriving DecidableEq, Repr

/-- The `except` clauses of `seat_thread` (lines 88-98).  `discardFails` says
whether `ser_seat.reset_input_buffer()` itself raises; the surrounding
`try/except Exception: pass` swallows that, so the argument is ignored. -/
def handleCycle : Outcome → Bool → Reaction
  | .success, _ => ⟨false, 0, true⟩
  | .timeout, _ => ⟨true, 20, true⟩
  | .desync, _ => ⟨true, 20, true⟩
  | .other, _ => ⟨false, 50, true⟩

/-- Run the loop against a trace of injected cycle outcomes (each paired with
whether the buffer discard of that cycle fails); count the cycles the loop
starts.  The loop breaks out early only if some handler fails to continue. -/
def loopCycles : List (Outcome × Bool) → Nat
  | [] => 0
  | (o, df) :: rest =>
    if (handleCycle o df).continues then 1 + loopCycles rest else 1

/-! ## Lock-granular concurrency model (`seat_lock`)

`Values_seat` is written only inside `with seat_lock` blocks (the column
commit at lines 54-55 and the clip at lines 86-87), and the consumer reads it
only inside `with seat_lock` (lines 115-116), producing a fresh array
(`zoom` allocates).  The commit is modelled below at the finest observable
grain: one cell write at a time, with the lock held from the first cell of a
column to the last.  A snapshot can only happen while the lock is free, so
the observable states are exactly those between complete commits. -/

/-- One cell store of `Values_seat[:, col_idx] = col`: write row `r` of
column `j`. -/
def writeCell (m : MatrixT) (j r : Nat) (v : Int) : MatrixT :=
  m.set j ((m.getD j []).set r v)

/-- The matrix after the first `k` cell stores of a column commit. -/
def writeCells (m : MatrixT) (j : Nat) (col : ColumnT) : Nat → MatrixT
  | 0 => m
  | k + 1 => writeCell (writeCells m j col k) j k (col.getD k 0)

/-- The lock-free (snapshot-observable) states over a run of column commits:
the state before any commit and the state after each complete commit.  All
states strictly inside a commit have `seat_lock` held and are not listed. -/
def unlockedStates (m : MatrixT) : List (Nat × ColumnT) → List MatrixT
  | [] => [m]
  | (j, c) :: rest => m :: unlockedStates (writeCells m j c ROWS_SEAT) rest

/-- Actions on the shared matrix, at the grain of one `with seat_lock` block:
a whole-column commit by the acquisition thread, or a snapshot read by the
consumer. -/
inductive SeatAction where
  | commit (j : Nat) (c : ColumnT)
  | snapshot
deriving DecidableEq, Repr

/-- Run a sequence of lock-protected actions: returns the final matrix and
the list of values the snapshot reads observed, in order.  A snapshot hands
the consumer the current matrix value (the code copies: `zoom` allocates a
fresh array before the lock is released). -/
def runActions : MatrixT → List SeatAction → MatrixT × List MatrixT
  | m, [] => (m, [])
  | m, .commit j c :: rest => runActions (commitColumn m j c) rest
  | m, .snapshot :: rest =>
    match runActions m rest with
    | (fm, snaps) => (fm, m :: snaps)

/-- The clamp written the way the spec writes it. -/
def clampSpec (x lo hi : Int) : Int := max lo (min hi x)

/-- The column value after the first `k` cells of `new` have been written
over `old` (proof-support description of a partially written column). -/
def setPrefix (old new : ColumnT) : Nat → ColumnT
  | 0 => old
  | k + 1 => (setPrefix old new k).set k (new.getD k 0)

/-! ## Supporting lemmas -/

theorem getD_set_ne {α : Type} (m : List α) (i j : Nat) (c d : α) (h : i ≠ j) :
    (m.set i c).getD j d = m.getD j d := by
  simp [List.getD_eq_getElem?_getD, List.getElem?_set_ne h]

theorem getD_set_self {α : Type} (m : List α) (j : Nat) (c d : α) (h : j < m.length) :
    (m.set j c).getD j d = c := by
  simp [List.getD_eq_getElem?_getD, List.getElem?_set_self h]

/-- Splicing a low byte below bit 8 coincides with addition. -/
theorem shiftLeft_or_eq_add (l h : Nat) (hh : h < 2 ^ 8) :
    (l <<< 8) ||| h = (l <<< 8) + h := by
  apply Nat.eq_of_testBit_eq
  intro i
  have h1 : l <<< 8 = 2 ^ 8 * l := by rw [Nat.shiftLeft_eq]; ring
  rw [h1, Nat.testBit_or, Nat.testBit_mul_pow_two_add l hh i, Nat.testBit_mul_pow_two]
  by_cases hi : i < 8
  · simp [hi, Nat.not_le.mpr hi]
  · have hb : h < 2 ^ i :=
      lt_of_lt_of_le hh (Nat.pow_le_pow_right (by norm_num) (Nat.not_lt.mp hi))
    simp [hi, Nat.not_lt.mp hi, Nat.testBit_lt_two_pow hb]

theorem decodeSample_bounds (high low : Nat) :
    0 ≤ decodeSample high low ∧ decodeSample high low ≤ 300 := by
  simp only [decodeSample]
  split_ifs <;> omega

theorem readSamples_err (n : Nat) (s : List Nat) (h : s.length < 2 * n) :
    readSamples n s = .error (.timeout, []) := by
  induction n generalizing s with
  | zero => omega
  | succ k ih =>
    simp only [readSamples, read_exact]
    rcases s with _ | ⟨b0, s0⟩
    · simp
    rcases s0 with _ | ⟨b1, s1⟩
    · simp
    have hlt : s1.length < 2 * k := by
      simp at h; omega
    simp [ih s1 hlt]

theorem readSamples_ok (n : Nat) (s : List Nat) (h : 2 * n ≤ s.length) :
    ∃ col, readSamples n s = .ok (col, s.drop (2 * n)) ∧
      col.length = n ∧ colOk col := by
  induction n generalizing s with
  | zero => exact ⟨[], rfl, rfl, by simp [colOk]⟩
  | succ k ih =>
    rcases s with _ | ⟨b0, s0⟩
    · simp at h
    rcases s0 with _ | ⟨b1, s1⟩
    · simp at h; omega
    have hk : 2 * k ≤ s1.length := by simp at h; omega
    obtain ⟨col, hcol, hlen, hok⟩ := ih s1 hk
    refine ⟨decodeSample b0 b1 :: col, ?_, by simp [hlen], ?_⟩
    · simp only [readSamples, read_exact]
      have h1 : (1:Nat) ≤ (b0 :: b1 :: s1).length := by simp
      have h2 : (1:Nat) ≤ (b1 :: s1).length := by simp
      have h3 : 2 * (k + 1) = 2 * k + 1 + 1 := by ring
      simp [h1, h2, hcol, h3, List.drop_succ_cons]
    · intro v hv
      rcases List.mem_cons.mp hv with h | h
      · subst h; exact decodeSample_bounds b0 b1
      · exact hok v h

/-- `C1`: for every pair of sample bytes `(high, low)` read in that order,
the decoded value stored by the column decoder equals
`clamp(4096 - ((low << 8) | high), 0, 300)`; in particular `(0x00, 0x00)`
decodes to 300 and `(0xFF, 0x0F)` decodes to 1. -/
theorem sample_decode_matches_clamp_spec :
    (∀ high low : Nat, high < 256 → low < 256 →
      decodeSample high low = clampSpec (4096 - Int.ofNat ((low <<< 8) ||| high)) 0 300)
    ∧ decodeSample 0x00 0x00 = 300 ∧ decodeSample 0xFF 0x0F = 1 := by
  refine ⟨?_, by decide, by decide⟩
  intro high low hh _
  rw [shiftLeft_or_eq_add low high (by omega)]
  simp only [decodeSample, clampSpec]
  split_ifs <;> omega

/-- Witness for `C1` at `(high, low) = (0xFF, 0x0F)`. -/
theorem sample_decode_matches_clamp_spec_witness :
    decodeSample 0xFF 0x0F = clampSpec (4096 - Int.ofNat ((0x0F <<< 8) ||| 0xFF)) 0 300 :=
  sample_decode_matches_clamp_spec.1 0xFF 0x0F (by decide) (by decide)

theorem readSamples_ok_inv (n : Nat) (s s' : List Nat) (col : List Int)
    (h : readSamples n s = .ok (col, s')) :
    col.length = n ∧ colOk col ∧ s' = s.drop (2 * n) := by
  by_cases hl : 2 * n ≤ s.length
  · obtain ⟨col2, hc, hlen, hok⟩ := readSamples_ok n s hl
    rw [hc] at h
    simp only [Except.ok.injEq, Prod.mk.injEq] at h
    obtain ⟨h1, h2⟩ := h
    subst h1; subst h2
    exact ⟨hlen, hok, rfl⟩
  · rw [readSamples_err n s (by omega)] at h
    simp at h

/-- `C8` (corrected): the column decoder fails with `TimeoutError` whenever a
sample byte is missing, and when the stream carries the full column it
consumes `2 * ROWS_SEAT` sample bytes plus exactly one trailing delimiter
byte; but the delimiter read is plain `ser.read(1)` ("consume one delimiter
byte if present"), so a stream that ends right after the samples still
succeeds — a missing delimiter does not raise. -/
theorem column_decoder_reads_and_timeouts :
    (∀ (idx : Nat) (s : List Nat) (m : MatrixT), 2 * ROWS_SEAT + 1 ≤ s.length →
      ∃ m2, ReceiveRowSeat idx s m = .ok (s.drop (2 * ROWS_SEAT + 1), m2))
    ∧ (∀ (idx : Nat) (s : List Nat) (m : MatrixT), s.length < 2 * ROWS_SEAT →
      ReceiveRowSeat idx s m = .error (.timeout, []))
    ∧ (∀ (idx : Nat) (s : List Nat) (m : MatrixT), s.length = 2 * ROWS_SEAT →
      ∃ m2, ReceiveRowSeat idx s m = .ok ([], m2)) := by
  refine ⟨?_, ?_, ?_⟩
  · intro idx s m hlen
    obtain ⟨col, hc, -, -⟩ := readSamples_ok ROWS_SEAT s (by omega)
    refine ⟨commitColumn m idx col, ?_⟩
    simp only [ReceiveRowSeat, hc, serRead]
    rw [List.drop_drop]
  · intro idx s m hlen
    simp only [ReceiveRowSeat, readSamples_err ROWS_SEAT s (by omega)]
  · intro idx s m hlen
    obtain ⟨col, hc, -, -⟩ := readSamples_ok ROWS_SEAT s (by omega)
    refine ⟨commitColumn m idx col, ?_⟩
    simp only [ReceiveRowSeat, hc, serRead]
    have hnil : s.drop (2 * ROWS_SEAT) = [] := List.drop_eq_nil_of_le (by omega)
    simp [hnil]

/-- Witness for `C8`: a stream of 41 zero bytes is fully consumed, a stream of
39 bytes times out, a stream of exactly 40 bytes still succeeds. -/
theorem column_decoder_reads_and_timeouts_witness :
    (∃ m2, ReceiveRowSeat 0 (List.replicate 41 0) initMatrix = .ok ([], m2)) ∧
    ReceiveRowSeat 0 (List.replicate 39 0) initMatrix = .error (.timeout, []) ∧
    (∃ m2, ReceiveRowSeat 0 (List.replicate 40 0) initMatrix = .ok ([], m2)) := by
  refine ⟨?_, ?_, ?_⟩
  · obtain ⟨m2, hm2⟩ :=
      column_decoder_reads_and_timeouts.1 0 (List.replicate 41 0) initMatrix (by decide)
    exact ⟨m2, by simpa using hm2⟩
  · exact column_decoder_reads_and_timeouts.2.1 0 (List.replicate 39 0) initMatrix (by decide)
  · exact column_decoder_reads_and_timeouts.2.2 0 (List.replicate 40 0) initMatrix (by decide)

/-- Counterexample to `C8` as stated: the claim requires a `TimeoutError`
when the trailing delimiter byte is not available, but on a stream holding
exactly the 40 sample bytes and nothing else (all zero bytes, so every sample
clamps to 300) `ReceiveRowSeat` succeeds and commits the column. -/
theorem delimiter_timeout_counterexample :
    ReceiveRowSeat 0 (List.replicate 40 0) initMatrix =
      .ok ([], commitColumn initMatrix 0 (List.replicate 20 300)) := by
  rfl

theorem ReceiveRowSeat_ok_inv (idx : Nat) (s s' : List Nat) (m m' : MatrixT)
    (h : ReceiveRowSeat idx s m = .ok (s', m')) :
    ∃ col, col.length = ROWS_SEAT ∧ colOk col ∧ m' = commitColumn m idx col := by
  unfold ReceiveRowSeat at h
  cases hrs : readSamples ROWS_SEAT s with
  | error e => rw [hrs] at h; simp at h
  | ok p =>
    obtain ⟨col, s1⟩ := p
    rw [hrs] at h
    simp only [Except.ok.injEq, Prod.mk.injEq] at h
    obtain ⟨hlen, hok, -⟩ := readSamples_ok_inv _ _ _ _ hrs
    exact ⟨col, hlen, hok, h.2.symm⟩

theorem mapIteration_ok_inv (s : List Nat) (m : MatrixT) (s1 : List Nat) (m1 : MatrixT)
    (h : mapIteration s m = .ok (s1, m1)) :
    m1 = m ∨ ∃ j col, j < COLS_SEAT ∧ col.length = ROWS_SEAT ∧ colOk col ∧
      m1 = commitColumn m j col := by
  unfold mapIteration at h
  cases hfm : findMarker s with
  | error e => rw [hfm] at h; simp at h
  | ok sA =>
    rw [hfm] at h
    simp only at h
    cases hp : read_exact sA 1 with
    | error e => rw [hp] at h; simp at h
    | ok pb =>
      obtain ⟨pad, sB⟩ := pb
      rw [hp] at h
      simp only at h
      cases hi : read_exact sB 1 with
      | error e => rw [hi] at h; simp at h
      | ok ib =>
        obtain ⟨idxb, sC⟩ := ib
        rw [hi] at h
        simp only at h
        by_cases hidx : idxb.headD 0 < COLS_SEAT
        · rw [if_pos hidx] at h
          obtain ⟨col, hlen, hok, hm⟩ := ReceiveRowSeat_ok_inv _ _ _ _ _ h
          exact .inr ⟨_, col, hidx, hlen, hok, hm⟩
        · rw [if_neg hidx] at h
          simp only [Except.ok.injEq, Prod.mk.injEq] at h
          exact .inl h.2.symm

theorem applyCommits_getD_ne (m : MatrixT) (commits : List (Nat × ColumnT)) (j : Nat)
    (h : ∀ p ∈ commits, p.1 ≠ j) :
    (applyCommits m commits).getD j [] = m.getD j [] := by
  induction commits generalizing m with
  | nil => rfl
  | cons p rest ih =>
    obtain ⟨i, c⟩ := p
    simp only [applyCommits]
    rw [ih _ (fun q hq => h q (List.mem_cons_of_mem _ hq))]
    exact getD_set_ne _ _ _ _ _ (h (i, c) (List.mem_cons_self _ _))

/-- `C2`: a `TimeoutError` mid-column commits nothing for that column, and a
`TimeoutError` or desync error anywhere during a map read aborts the whole
read while the matrix at the point of failure is exactly the input matrix
with some sequence of whole-column commits applied — every column index that
was never committed (the failing column included) still holds its pre-cycle
value. -/
theorem map_decode_failure_preserves_uncommitted_columns
    (n : Nat) (s : List Nat) (m : MatrixT) (e : Err) (s' : List Nat) (m' : MatrixT)
    (h : mapLoop n s m = .err e s' m') :
    ∃ commits : List (Nat × ColumnT),
      (∀ p ∈ commits, p.1 < COLS_SEAT ∧ p.2.length = ROWS_SEAT ∧ colOk p.2) ∧
      m' = applyCommits m commits ∧
      ∀ j, (∀ p ∈ commits, p.1 ≠ j) → m'.getD j [] = m.getD j [] := by
  induction n generalizing s m with
  | zero => simp [mapLoop] at h
  | succ k ih =>
    simp only [mapLoop] at h
    cases hit : mapIteration s m with
    | error e0 =>
      obtain ⟨e1, s1⟩ := e0
      rw [hit] at h
      simp only [MapOutcome.err.injEq] at h
      refine ⟨[], by simp, h.2.2.symm, fun j _ => by rw [h.2.2]⟩
    | ok p =>
      obtain ⟨sA, mA⟩ := p
      rw [hit] at h
      obtain ⟨commits, hprops, hm, -⟩ := ih sA mA h
      rcases mapIteration_ok_inv _ _ _ _ hit with hid | ⟨j0, col, hj0, hlen, hok, hcommit⟩
      · subst hid
        exact ⟨commits, hprops, hm, fun j hj => by
          rw [hm]; exact applyCommits_getD_ne _ _ _ hj⟩
      · subst hcommit
        refine ⟨(j0, col) :: commits, ?_, hm, ?_⟩
        · intro p hp
          rcases List.mem_cons.mp hp with hp | hp
          · subst hp; exact ⟨hj0, hlen, hok⟩
          · exact hprops p hp
        · intro j hj
          rw [hm]
          rw [applyCommits_getD_ne _ _ _ (fun q hq => hj q (List.mem_cons_of_mem _ hq))]
          exact getD_set_ne _ _ _ _ _ (hj (j0, col) (List.mem_cons_self _ _))

/-- Witness for `C2`: a map read from an empty stream times out at once,
committing nothing. -/
theorem map_decode_failure_preserves_uncommitted_columns_witness :
    ∃ commits : List (Nat × ColumnT),
      (∀ p ∈ commits, p.1 < COLS_SEAT ∧ p.2.length = ROWS_SEAT ∧ colOk p.2) ∧
      initMatrix = applyCommits initMatrix commits ∧
      ∀ j, (∀ p ∈ commits, p.1 ≠ j) → initMatrix.getD j [] = initMatrix.getD j [] :=
  map_decode_failure_preserves_uncommitted_columns COLS_SEAT [] initMatrix
    .timeout [] initMatrix (by rfl)

theorem markerScanGo_marker_found (f : Nat) (s : List Nat) :
    markerScanGo [MARKER] f s = ([MARKER], s) := by
  cases f <;> simp [markerScanGo]

theorem markerScanGo_no_marker (f : Nat) : ∀ (marker s : List Nat),
    marker ≠ [MARKER] → f ≤ s.length → (∀ b ∈ s.take f, b ≠ MARKER) →
    ∃ mk, markerScanGo marker f s = (mk, s.drop f) ∧ mk ≠ [MARKER] := by
  induction f with
  | zero =>
    intro marker s hm _ _
    exact ⟨marker, by simp [markerScanGo], hm⟩
  | succ f ih =>
    intro marker s hm hlen hnm
    rcases s with _ | ⟨s0, tl⟩
    · simp at hlen
    have hs0 : s0 ≠ MARKER := hnm s0 (by simp [List.take_succ_cons])
    have hlen2 : f ≤ tl.length := by simp at hlen; omega
    have hrec := ih [s0] tl (by simp [hs0]) hlen2
      (fun b hb => hnm b (by simp [List.take_succ_cons]; exact .inr hb))
    simpa [markerScanGo, serRead, hm] using hrec

theorem markerScanGo_finds_marker (k : Nat) : ∀ (f : Nat) (s marker : List Nat),
    marker ≠ [MARKER] → k < f → k < s.length →
    (∀ b ∈ s.take k, b ≠ MARKER) → s.getD k 0 = MARKER →
    markerScanGo marker f s = ([MARKER], s.drop (k + 1)) := by
  induction k with
  | zero =>
    intro f s marker hm hk hks hbefore hat
    rcases s with _ | ⟨s0, tl⟩
    · simp at hks
    have hs0 : s0 = MARKER := by simpa using hat
    rcases f with _ | f
    · omega
    simp [markerScanGo, serRead, hm, hs0, markerScanGo_marker_found]
  | succ k ih =>
    intro f s marker hm hk hks hbefore hat
    rcases s with _ | ⟨s0, tl⟩
    · simp at hks
    have hs0 : s0 ≠ MARKER := hbefore s0 (by simp [List.take_succ_cons])
    rcases f with _ | f
    · omega
    have hrec := ih f tl [s0] (by simp [hs0]) (by omega) (by simpa using hks)
      (fun b hb => hbefore b (by simp [List.take_succ_cons]; exact .inr hb))
      (by simpa using hat)
    simpa [markerScanGo, serRead, hm] using hrec

/-- `C3`: the marker wait of `ReceiveMapSeat` has a total scan budget of 65
bytes (one unconditional `read_exact(1)` plus at most 64 bounded rescan
reads).  On a stream whose first 65 bytes contain no `'M'` it raises the
desync error having consumed exactly 65 bytes, no more; on a stream whose
first `'M'` sits at position `k < 65` it succeeds with the stream positioned
exactly one byte past that marker. -/
theorem marker_scan_bounded_consumption :
    (∀ s : List Nat, 65 ≤ s.length → (∀ b ∈ s.take 65, b ≠ MARKER) →
      findMarker s = .error (.desync, s.drop 65))
    ∧ (∀ (s : List Nat) (k : Nat), k < 65 → k < s.length →
      (∀ b ∈ s.take k, b ≠ MARKER) → s.getD k 0 = MARKER →
      findMarker s = .ok (s.drop (k + 1))) := by
  constructor
  · intro s hlen hnm
    rcases s with _ | ⟨s0, tl⟩
    · simp at hlen
    have hs0 : s0 ≠ MARKER := hnm s0 (by simp [List.take_succ_cons])
    have h1 : (1:Nat) ≤ (s0 :: tl).length := by simp
    obtain ⟨mk, hscan, hmk⟩ := markerScanGo_no_marker 64 [s0] tl (by simp [hs0])
      (by simp at hlen; omega)
      (fun b hb => hnm b (by simp [List.take_succ_cons]; exact .inr hb))
    simp only [findMarker, read_exact, h1, if_pos]
    simp [hs0, hscan, hmk]
  · intro s k hk hks hbefore hat
    rcases s with _ | ⟨s0, tl⟩
    · simp at hks
    have h1 : (1:Nat) ≤ (s0 :: tl).length := by simp
    cases k with
    | zero =>
      have hs0 : s0 = MARKER := by simpa using hat
      simp [findMarker, read_exact, h1, hs0]
    | succ k =>
      have hs0 : s0 ≠ MARKER := hbefore s0 (by simp [List.take_succ_cons])
      have hscan := markerScanGo_finds_marker k 64 tl [s0] (by simp [hs0])
        (by omega) (by simpa using hks)
        (fun b hb => hbefore b (by simp [List.take_succ_cons]; exact .inr hb))
        (by simpa using hat)
      simp only [findMarker, read_exact, h1, if_pos]
      simp [hs0, hscan]

/-- Witness for `C3`: 65 zero bytes exhaust the budget and desync; a zero
byte followed by `'M'` succeeds, positioned just past the marker. -/
theorem marker_scan_bounded_consumption_witness :
    findMarker (List.replicate 65 0) = .error (.desync, []) ∧
    findMarker (0 :: MARKER :: [9, 9]) = .ok [9, 9] := by
  constructor
  · have h := marker_scan_bounded_consumption.1 (List.replicate 65 0)
      (by decide) (by decide)
    simpa using h
  · have h := marker_scan_bounded_consumption.2 (0 :: MARKER :: [9, 9]) 1
      (by decide) (by decide) (by decide) (by decide)
    simpa using h

theorem mapIteration_skip (pad b : Nat) (rest : List Nat) (m : MatrixT)
    (hb : COLS_SEAT ≤ b) :
    mapIteration (MARKER :: pad :: b :: rest) m = .ok (rest, m) := by
  simp [mapIteration, findMarker, read_exact, serRead, Nat.not_lt.mpr hb]

/-- `C10`: when the index byte of a column header is out of range, the map
decoder consumes only the 3 header bytes it has already read: the whole
column payload (the `2 * ROWS_SEAT` sample bytes and the trailing delimiter)
stays in the stream, and the next loop iteration starts its marker wait on
that payload rather than at the next frame boundary. -/
theorem skipped_column_payload_remains :
    ∀ (n pad b : Nat) (rest : List Nat) (m : MatrixT), COLS_SEAT ≤ b →
      mapIteration (MARKER :: pad :: b :: rest) m = .ok (rest, m) ∧
      mapLoop (n + 1) (MARKER :: pad :: b :: rest) m = mapLoop n rest m := by
  intro n pad b rest m hb
  have hskip := mapIteration_skip pad b rest m hb
  exact ⟨hskip, by simp [mapLoop, hskip]⟩

/-- Witness for `C10` at index byte 25, grid width 20. -/
theorem skipped_column_payload_remains_witness :
    mapIteration (MARKER :: 0 :: 25 :: List.replicate 41 0) initMatrix =
      .ok (List.replicate 41 0, initMatrix) ∧
    mapLoop 1 (MARKER :: 0 :: 25 :: List.replicate 41 0) initMatrix =
      mapLoop 0 (List.replicate 41 0) initMatrix :=
  skipped_column_payload_remains 0 0 25 (List.replicate 41 0) initMatrix (by decide)

/-- A well-formed column frame for column index `idx`: marker byte, one
padding byte, the index byte, 40 zero-valued sample bytes (each decoding to
the clamped value 300) and one delimiter byte. -/
def goodFrame (idx : Nat) : List Nat :=
  MARKER :: 0 :: idx :: List.replicate 41 0

/-- Exactly 20 frames: the first header carries the out-of-range index 25,
the remaining 19 carry the valid indices 0..18.  There are no further bytes. -/
def skipStream : List Nat :=
  goodFrame 25 ++ ((List.range 19).map goodFrame).flatten

set_option maxRecDepth 40000 in
/-- Counterexample to `C4` as stated: the claim says a skipped out-of-range
header is not counted toward the required total of `COLS_SEAT` decoded
columns, which would force the decoder to demand a 20th valid frame here and
fail (the stream is exhausted after its 20 frames).  Instead the skip
consumes one of the exactly 20 loop iterations: the map read completes
successfully, the stream is fully consumed, and only 19 columns (indices
0..18) were decoded — column 19 still holds its initial all-zero value. -/
theorem skipped_column_counted_counterexample :
    ReceiveMapSeat skipStream initMatrix =
      .ok [] (List.replicate 19 (List.replicate 20 (300 : Int)) ++
        [List.replicate 20 0]) := by
  decide

set_option maxRecDepth 40000 in
/-- `C4` (amended): a column header whose index byte is out of `[0, COLS_SEAT)`
is skipped silently — nothing is raised and the matrix is untouched by the
skip — but the skip does consume one of the exactly `COLS_SEAT` loop
iterations, so a cycle containing one bad header completes successfully with
only `COLS_SEAT - 1` columns decoded. -/
theorem skipped_column_silent_and_counted :
    (∀ (pad b : Nat) (rest : List Nat) (m : MatrixT), COLS_SEAT ≤ b →
      mapIteration (MARKER :: pad :: b :: rest) m = .ok (rest, m)) ∧
    ReceiveMapSeat skipStream initMatrix =
      .ok [] (List.replicate 19 (List.replicate 20 (300 : Int)) ++
        [List.replicate 20 0]) ∧
    (List.replicate 19 (List.replicate 20 (300 : Int)) ++
        [List.replicate 20 (0 : Int)]).getD 19 [] = initMatrix.getD 19 [] := by
  refine ⟨fun pad b rest m hb => mapIteration_skip pad b rest m hb, by decide, by decide⟩

/-- Witness for `C4` at index byte 25, grid width 20. -/
theorem skipped_column_silent_and_counted_witness :
    mapIteration (MARKER :: 7 :: 25 :: [1, 2, 3]) initMatrix =
      .ok ([1, 2, 3], initMatrix) :=
  skipped_column_silent_and_counted.1 7 25 [1, 2, 3] initMatrix (by decide)

theorem handleCycle_continues (o : Outcome) (df : Bool) :
    (handleCycle o df).continues = true := by
  cases o <;> rfl

theorem loopCycles_length (trace : List (Outcome × Bool)) :
    loopCycles trace = trace.length := by
  induction trace with
  | nil => rfl
  | cons p rest ih =>
    obtain ⟨o, df⟩ := p
    simp [loopCycles, handleCycle_continues, ih]
    omega

/-- `C5`: the acquisition loop never terminates on any cycle outcome.  Every
injected trace of outcomes is processed in full (one loop cycle per entry,
e.g. 100 consecutive desyncs); on `TimeoutError`/desync the handler attempts
the input-buffer discard — ignoring whether the discard itself fails — and
sleeps the short 20 ms backoff, on any other exception it sleeps the longer
50 ms backoff without discarding, and in every case control returns to the
top of the `while True` loop.  Every outcome of a real map read is handled
this way. -/
theorem acquisition_loop_never_terminates :
    (∀ trace : List (Outcome × Bool), loopCycles trace = trace.length) ∧
    (∀ (o : Outcome) (df : Bool), (handleCycle o df).continues = true) ∧
    (∀ df : Bool,
      handleCycle .timeout df = ⟨true, 20, true⟩ ∧
      handleCycle .desync df = ⟨true, 20, true⟩ ∧
      handleCycle .other df = ⟨false, 50, true⟩ ∧
      handleCycle .success df = ⟨false, 0, true⟩) ∧
    (∀ o : Outcome, handleCycle o true = handleCycle o false) ∧
    (∀ (out : MapOutcome) (df : Bool), (handleCycle (classify out) df).continues = true) ∧
    loopCycles (List.replicate 100 (Outcome.desync, true)) = 100 := by
  refine ⟨loopCycles_length, handleCycle_continues, ?_, ?_, ?_, ?_⟩
  · intro df; exact ⟨rfl, rfl, rfl, rfl⟩
  · intro o; cases o <;> rfl
  · intro out df; exact handleCycle_continues _ _
  · rw [loopCycles_length]; simp

theorem colOk_of_decode (col : List Int) (s s' : List Nat) (n : Nat)
    (h : readSamples n s = .ok (col, s')) : colOk col :=
  (readSamples_ok_inv n s s' col h).2.1

theorem matOk_commit (m : MatrixT) (idx : Nat) (col : ColumnT)
    (hm : matOk m) (hc : colOk col) : matOk (commitColumn m idx col) := by
  intro c hcmem
  rcases List.mem_or_eq_of_mem_set hcmem with h | h
  · exact hm c h
  · subst h; exact hc

theorem matOk_mapLoop (n : Nat) (s : List Nat) (m : MatrixT) (hm : matOk m) :
    matOk (outMatrix (mapLoop n s m)) := by
  induction n generalizing s m with
  | zero => exact hm
  | succ k ih =>
    simp only [mapLoop]
    cases hit : mapIteration s m with
    | error e0 => obtain ⟨e1, s1⟩ := e0; exact hm
    | ok p =>
      obtain ⟨sA, mA⟩ := p
      have hmA : matOk mA := by
        rcases mapIteration_ok_inv _ _ _ _ hit with hid | ⟨j0, col, -, -, hok, hcommit⟩
        · subst hid; exact hm
        · subst hcommit; exact matOk_commit _ _ _ hm hok
      exact ih sA mA hmA

theorem clampNeg_eq_self (c : ColumnT) (h : ∀ v ∈ c, 0 ≤ v) :
    c.map (fun v => if v < 0 then 0 else v) = c := by
  induction c with
  | nil => rfl
  | cons x xs ih =>
    have hx : ¬ x < 0 := not_lt.mpr (h x (List.mem_cons_self _ _))
    simp only [List.map_cons, if_neg hx]
    rw [ih (fun v hv => h v (List.mem_cons_of_mem _ hv))]

theorem matOk_init : matOk initMatrix := by
  intro c hc v hv
  rw [List.eq_of_mem_replicate hc] at hv
  rw [List.eq_of_mem_replicate hv]
  exact ⟨le_refl 0, by norm_num⟩

theorem normalizeMatrix_eq_self (m : MatrixT) (hm : matOk m) :
    normalizeMatrix m = m := by
  unfold normalizeMatrix
  induction m with
  | nil => rfl
  | cons c rest ih =>
    simp only [List.map_cons]
    rw [clampNeg_eq_self c (fun v hv => (hm c (List.mem_cons_self _ _) v hv).1)]
    rw [ih (fun c2 hc2 => hm c2 (List.mem_cons_of_mem _ hc2))]

/-- `C6`: every cell of the shared matrix always lies in `[0, 300]`.  The
matrix starts all-zero; the decoder clamps every sample into `[0, 300]`
before it can be committed, so any map read (successful or aborted) preserves
the bound; and on a matrix satisfying the bound the `np.clip(…, 0, None)`
normalization pass is the identity. -/
theorem matrix_cells_within_bounds_invariant :
    (∀ c ∈ initMatrix, ∀ v ∈ c, v = (0 : Int)) ∧
    matOk initMatrix ∧
    (∀ high low : Nat, 0 ≤ decodeSample high low ∧ decodeSample high low ≤ 300) ∧
    (∀ (n : Nat) (s : List Nat) (m : MatrixT), matOk m →
      matOk (outMatrix (mapLoop n s m))) ∧
    (∀ m : MatrixT, matOk m → normalizeMatrix m = m) := by
  refine ⟨?_, matOk_init, decodeSample_bounds, matOk_mapLoop, normalizeMatrix_eq_self⟩
  intro c hc v hv
  rw [List.eq_of_mem_replicate hc] at hv
  exact List.eq_of_mem_replicate hv

/-- Witness for `C6`: one full map read over the counterexample stream keeps
every cell within bounds, and normalization fixes the initial matrix. -/
theorem matrix_cells_within_bounds_invariant_witness :
    matOk (outMatrix (mapLoop COLS_SEAT skipStream initMatrix)) ∧
    normalizeMatrix initMatrix = initMatrix :=
  ⟨matrix_cells_within_bounds_invariant.2.2.2.1 COLS_SEAT skipStream initMatrix
      matOk_init,
    matrix_cells_within_bounds_invariant.2.2.2.2 initMatrix matOk_init⟩

theorem set_getD_self {α : Type} (m : List α) (j : Nat) (d : α) (h : j < m.length) :
    m.set j (m.getD j d) = m := by
  induction m generalizing j with
  | nil => simp at h
  | cons x xs ih =>
    cases j with
    | zero => rfl
    | succ k =>
      have hk : k < xs.length := by simp at h; omega
      simp only [List.set_cons_succ, List.getD_cons_succ]
      rw [ih k hk]

theorem matSized_init : matSized initMatrix := by
  constructor
  · simp [initMatrix]
  · intro c hc
    rw [List.eq_of_mem_replicate hc]
    simp

theorem matSized_commit (m : MatrixT) (j : Nat) (c : ColumnT)
    (hm : matSized m) (hc : c.length = ROWS_SEAT) : matSized (commitColumn m j c) := by
  refine ⟨by simp [commitColumn, hm.1], ?_⟩
  intro c2 hc2
  rcases List.mem_or_eq_of_mem_set hc2 with h | h
  · exact hm.2 c2 h
  · subst h; exact hc

theorem writeCells_setPrefix (m : MatrixT) (j : Nat) (col : ColumnT)
    (hj : j < m.length) (k : Nat) :
    writeCells m j col k = m.set j (setPrefix (m.getD j []) col k) := by
  induction k with
  | zero => exact (set_getD_self m j [] hj).symm
  | succ k ih =>
    simp only [writeCells, writeCell, ih]
    rw [getD_set_self m j _ [] hj, List.set_set]
    rfl

theorem setPrefix_take_drop (old new : ColumnT) (R : Nat) (hold : old.length = R)
    (hnew : new.length = R) : ∀ k, k ≤ R →
    setPrefix old new k = new.take k ++ old.drop k := by
  intro k
  induction k with
  | zero => intro _; simp [setPrefix]
  | succ k ih =>
    intro hk
    have hkold : k < old.length := by omega
    have hknew : k < new.length := by omega
    have hlen : (new.take k).length = k := by
      simp [List.length_take]; omega
    have hset : (old.drop k).set 0 (new.getD k 0) = new[k] :: old.drop (k + 1) := by
      rw [List.drop_eq_getElem_cons hkold, List.set_cons_zero]
      simp only [List.getD_eq_getElem?_getD, List.getElem?_eq_getElem hknew,
        Option.getD_some]
    simp only [setPrefix]
    rw [ih (by omega), List.set_append_right _ _ (by omega), hlen, Nat.sub_self, hset,
      List.take_succ, List.getElem?_eq_getElem hknew]
    simp only [Option.toList_some, List.append_assoc, List.singleton_append]

theorem writeCells_out_of_range (m : MatrixT) (j : Nat) (col : ColumnT)
    (hj : m.length ≤ j) : ∀ k, writeCells m j col k = m := by
  intro k
  induction k with
  | zero => rfl
  | succ k ih =>
    simp only [writeCells, writeCell, ih]
    exact List.set_eq_of_length_le hj

theorem writeCells_eq_commit (m : MatrixT) (j : Nat) (col : ColumnT)
    (hsize : matSized m) (hcol : col.length = ROWS_SEAT) :
    writeCells m j col ROWS_SEAT = commitColumn m j col := by
  by_cases hj : j < m.length
  · rw [writeCells_setPrefix m j col hj]
    have hmem : m.getD j [] ∈ m := by
      have : m.getD j [] = m[j] := by
        simp [List.getD_eq_getElem?_getD, List.getElem?_eq_getElem hj]
      rw [this]
      exact List.getElem_mem hj
    have hold : (m.getD j []).length = ROWS_SEAT := hsize.2 _ hmem
    rw [setPrefix_take_drop (m.getD j []) col ROWS_SEAT hold hcol ROWS_SEAT (le_refl _)]
    rw [List.take_of_length_le (by omega), List.drop_eq_nil_of_le (by omega)]
    simp [commitColumn]
  · rw [writeCells_out_of_range m j col (by omega)]
    simp only [commitColumn]
    exact (List.set_eq_of_length_le (by omega)).symm

/-- `C7`: a column commit is atomic with respect to the consumer.  Both the
column write and the consumer's read hold `seat_lock`, so — modelling the
commit at the grain of single cell stores performed while the lock is held —
every state a snapshot can observe (the lock-free states) is exactly the
matrix after some prefix of complete column commits: no observable state
mixes old and new values within one column, and the observer only ever
receives a matrix value, never the writer's in-progress buffer. -/
theorem column_commit_atomic_snapshots
    (m : MatrixT) (commits : List (Nat × ColumnT))
    (hsize : matSized m) (hlens : ∀ p ∈ commits, p.2.length = ROWS_SEAT) :
    ∀ st ∈ unlockedStates m commits, ∃ k, st = applyCommits m (commits.take k) := by
  induction commits generalizing m with
  | nil =>
    intro st hst
    simp only [unlockedStates, List.mem_singleton] at hst
    exact ⟨0, by simp [hst, applyCommits]⟩
  | cons p rest ih =>
    obtain ⟨j, c⟩ := p
    intro st hst
    simp only [unlockedStates, List.mem_cons] at hst
    rcases hst with h | h
    · exact ⟨0, by simp [h, applyCommits]⟩
    · have hc : c.length = ROWS_SEAT := hlens (j, c) (List.mem_cons_self _ _)
      rw [writeCells_eq_commit m j c hsize hc] at h
      obtain ⟨k, hk⟩ := ih (commitColumn m j c) (matSized_commit m j c hsize hc)
        (fun q hq => hlens q (List.mem_cons_of_mem _ hq)) st h
      exact ⟨k + 1, by simpa [applyCommits, List.take_succ_cons] using hk⟩

/-- Witness for `C7`: the state after one complete commit of column 2. -/
theorem column_commit_atomic_snapshots_witness :
    ∃ k, writeCells initMatrix 2 (List.replicate 20 7) ROWS_SEAT =
      applyCommits initMatrix ([(2, List.replicate 20 7)].take k) :=
  column_commit_atomic_snapshots initMatrix [(2, List.replicate 20 7)]
    matSized_init (by simp [ROWS_SEAT])
    (writeCells initMatrix 2 (List.replicate 20 7) ROWS_SEAT)
    (by simp [unlockedStates])

theorem runActions_all_snapshots (acts : List SeatAction)
    (h : ∀ a ∈ acts, a = SeatAction.snapshot) (m : MatrixT) :
    runActions m acts = (m, List.replicate acts.length m) := by
  induction acts with
  | nil => rfl
  | cons a rest ih =>
    have ha : a = SeatAction.snapshot := h a (List.mem_cons_self _ _)
    subst ha
    simp [runActions, ih (fun b hb => h b (List.mem_cons_of_mem _ hb)),
      List.replicate_succ]

/-- `C9`: the consumer-facing snapshot (the lock-protected read of
`Values_seat` in `update_seat`, which copies before releasing the lock) hands
back the full current matrix without disturbing the shared state, every
snapshot of a well-formed run has the fixed `ROWS_SEAT × COLS_SEAT` shape,
and snapshotting is idempotent: in any window of actions containing no
column commit, all snapshots return the identical matrix. -/
theorem snapshot_idempotent_and_full_copy :
    (∀ (m : MatrixT) (rest : List SeatAction),
      (runActions m (.snapshot :: rest)).1 = (runActions m rest).1 ∧
      (runActions m (.snapshot :: rest)).2 = m :: (runActions m rest).2) ∧
    (∀ (m : MatrixT) (acts : List SeatAction), (∀ a ∈ acts, a = SeatAction.snapshot) →
      ∀ sn ∈ (runActions m acts).2, sn = m) ∧
    (∀ (m : MatrixT) (acts : List SeatAction), matSized m →
      (∀ j c, SeatAction.commit j c ∈ acts → c.length = ROWS_SEAT) →
      ∀ sn ∈ (runActions m acts).2, matSized sn) := by
  refine ⟨?_, ?_, ?_⟩
  · intro m rest
    cases h : runActions m rest with
    | mk fm snaps => simp [runActions, h]
  · intro m acts h sn hsn
    rw [runActions_all_snapshots acts h m] at hsn
    exact List.eq_of_mem_replicate hsn
  · intro m acts
    induction acts generalizing m with
    | nil => intro _ _ sn hsn; simp [runActions] at hsn
    | cons a rest ih =>
      intro hm hc sn hsn
      cases a with
      | commit j c =>
        simp only [runActions] at hsn
        have hlen : c.length = ROWS_SEAT := hc j c (List.mem_cons_self _ _)
        exact ih (commitColumn m j c) (matSized_commit m j c hm hlen)
          (fun j2 c2 hmem => hc j2 c2 (List.mem_cons_of_mem _ hmem)) sn hsn
      | snapshot =>
        simp only [runActions] at hsn
        cases hrun : runActions m rest with
        | mk fm snaps =>
          rw [hrun] at hsn
          simp only [List.mem_cons] at hsn
          rcases hsn with h | h
          · subst h; exact hm
          · exact ih m hm (fun j2 c2 hmem => hc j2 c2 (List.mem_cons_of_mem _ hmem))
              sn (by rw [hrun]; exact h)

/-- Witness for `C9`: two snapshots with no intervening commit both return the
initial matrix; after one commit the snapshot is still a 20 × 20 grid. -/
theorem snapshot_idempotent_and_full_copy_witness :
    (∀ sn ∈ (runActions initMatrix [SeatAction.snapshot, SeatAction.snapshot]).2,
      sn = initMatrix) ∧
    (∀ sn ∈ (runActions initMatrix
        [SeatAction.commit 3 (List.replicate 20 5), SeatAction.snapshot]).2,
      matSized sn) :=
  ⟨snapshot_idempotent_and_full_copy.2.1 initMatrix
      [SeatAction.snapshot, SeatAction.snapshot] (by simp),
    snapshot_idempotent_and_full_copy.2.2 initMatrix
      [SeatAction.commit 3 (List.replicate 20 5), SeatAction.snapshot]
      matSized_init
      (by
        intro j c hmem
        simp only [List.mem_cons, List.not_mem_nil, or_false] at hmem
        rcases hmem with h | h
        · rw [(SeatAction.commit.injEq _ _ _ _).mp h |>.2]
          simp [ROWS_SEAT]
        · exact absurd h (by simp))⟩

end PressureCode
